import Mathlib

/-!
# Verification of the cebus streaming-orchestration core

Shallow embedding of the parts of the cebus repository that the verified
claims are about:

* `src/orchestration/worker/copilot-worker.ts` — the `CopilotWorker` class:
  its approval gate (`onPermissionRequest`, `resolveApproval`,
  `clearPendingApprovals`, `mapPermissionKind`), its idle-timeout logic inside
  `execute`, and its `session.error` / catch-block handling.
* the `ChatApp` component — the promotion of completed messages into the
  static log (the `useEffect` scan with its sort comparator) and the
  plan-approval `useInput` handler.

Mutable instance fields and closure variables are modelled as explicit state
records; each event handler becomes a pure state-transition function.  The
idle timer is modelled by a generation counter `timerEpoch` that is bumped
every time the source calls `resetTimeout` (re-arming the timer); stream
emissions that a handler performs are returned as explicit event lists.
-/

namespace Cebus

/-! ## Worker data model (orchestration/types, projected to the used fields) -/

/-- The five permission kinds of `PermissionKind` in `orchestration/types`. -/
inductive PermissionKind
  | shell
  | write
  | read
  | mcp
  | url
deriving DecidableEq, Repr

/-- The error codes of `OrchestrationError` used by the worker
(spec §7 taxonomy). -/
inductive ErrorCode
  | TIMEOUT
  | CANCELLED
  | WORKER_EXECUTION
  | SESSION_NOT_FOUND
  | AUTH_FAILED
  | PROVIDER_ERROR
deriving DecidableEq, Repr

/-- `ApprovalResponse` — the payload passed to `resolveApproval`.  A caller
that sends no explicit budget ("default") corresponds to `budget = 1`. -/
structure ApprovalResponse where
  approved : Bool
  budget : Int
deriving DecidableEq, Repr

/-- The stream events relevant to the claims, projected from
`OrchestrationStreamEvent` to the fields the claims talk about. -/
inductive StreamEvent
  | approvalRequired (approvalId : String) (permissionKind : PermissionKind)
  | errorEvent (code : ErrorCode) (recoverable : Bool)
  | completeEvent (content : String)
deriving DecidableEq, Repr

/-- The mutable state of one `CopilotWorker` turn: the instance fields
`autoApproveBudget`, `pendingApprovals` (the keys of the resolver map, in
insertion order), `approvalCounter`, together with the `execute`-closure
variables `resolved` and `fullContent`.  `timerEpoch` counts how many times
`resetTimeout` has re-armed the idle timer; `outcome` records how the
`execute` promise settled (`Except.ok content` = resolve,
`Except.error code` = reject). -/
structure WorkerState where
  autoApproveBudget : Int
  pendingApprovals : List String
  approvalCounter : Nat
  timerEpoch : Nat
  resolved : Bool
  outcome : Option (Except ErrorCode String)
  fullContent : String
deriving Repr

instance : DecidableEq (Except ErrorCode String) := fun a b =>
  match a, b with
  | .ok x, .ok y => decidable_of_iff (x = y) (by simp)
  | .error x, .error y => decidable_of_iff (x = y) (by simp)
  | .ok _, .error _ => isFalse (by simp)
  | .error _, .ok _ => isFalse (by simp)

instance : DecidableEq WorkerState := fun a b => by
  cases a; cases b
  exact decidable_of_iff _ (Eq.to_iff (Cebus.WorkerState.mk.injEq ..)).symm

/-! ## `CopilotWorker.mapPermissionKind` (copilot-worker.ts lines 477–497) -/

/-- `CopilotWorker.mapPermissionKind`: the `switch` over the raw permission
kind string; any unrecognized kind falls to the `default: return 'write'`. -/
def mapPermissionKind (kind : String) : PermissionKind :=
  if kind = "shell" ∨ kind = "command" then .shell
  else if kind = "write" ∨ kind = "file-write" ∨ kind = "create-directory" then .write
  else if kind = "read" ∨ kind = "file-read" then .read
  else if kind = "mcp" then .mcp
  else if kind = "url" ∨ kind = "fetch" then .url
  else .write

/-- The case labels of the `switch` in `mapPermissionKind`: exactly the raw
kind strings that are recognized as aliases. -/
def recognizedKind (kind : String) : Bool :=
  kind = "shell" ∨ kind = "command" ∨ kind = "write" ∨ kind = "file-write" ∨
  kind = "create-directory" ∨ kind = "read" ∨ kind = "file-read" ∨
  kind = "mcp" ∨ kind = "url" ∨ kind = "fetch"

/-! ## Approval-id generation (copilot-worker.ts line 882)

The source builds `` `${agentProfile.id}-perm-${++this.approvalCounter}` ``.
`decimalRepr` embeds JavaScript's decimal rendering of the counter. -/

/-- The character for one decimal digit (`'0'`..`'9'`). -/
def digitChar (d : Nat) : Char := Char.ofNat (48 + d)

/-- Decimal rendering of a natural number, most-significant digit first,
as produced by JavaScript template interpolation of a number. -/
def decimalRepr (n : Nat) : String :=
  if n = 0 then "0" else ⟨((Nat.digits 10 n).map digitChar).reverse⟩

/-- The approval id `` `${agentId}-perm-${counter}` ``. -/
def mkApprovalId (agentId : String) (counter : Nat) : String :=
  agentId ++ "-perm-" ++ decimalRepr counter

/-! ## The permission-request handler (copilot-worker.ts lines 858–916) -/

/-- How `onPermissionRequest` answers the SDK: synchronously approved,
synchronously `denied-by-rules`, or suspended on a pending promise (the
resolver stored under `approvalId`). -/
inductive PermissionDecision
  | approved
  | deniedByRules
  | suspended (approvalId : String)
deriving DecidableEq, Repr

/-- Result of one `onPermissionRequest` call: the updated worker state, the
decision returned to the SDK, and the events emitted on `onStream`. -/
structure PermResult where
  state : WorkerState
  decision : PermissionDecision
  emitted : List StreamEvent
deriving DecidableEq, Repr

/-- `sessionConfig['onPermissionRequest']` (copilot-worker.ts 858–916):
read kinds are approved immediately; with tools disabled the request is
denied by rules; a non-zero `autoApproveBudget` auto-approves (decrementing
a positive budget); otherwise a fresh `approvalId` is minted
(pre-incrementing `approvalCounter`), an `approval_required` event is
emitted and the worker suspends on the stored resolver.  When `onStream` is
absent the request is denied by rules (after the counter increment, as in
the source). -/
def onPermissionRequest (s : WorkerState) (agentId kind : String)
    (toolsEnabled onStreamPresent : Bool) : PermResult :=
  let permKind := mapPermissionKind kind
  if permKind = .read then
    ⟨s, .approved, []⟩
  else if toolsEnabled = false then
    ⟨s, .deniedByRules, []⟩
  else if s.autoApproveBudget ≠ 0 then
    let s' := if s.autoApproveBudget > 0 then
        { s with autoApproveBudget := s.autoApproveBudget - 1 }
      else s
    ⟨s', .approved, []⟩
  else
    let counter := s.approvalCounter + 1
    let approvalId := mkApprovalId agentId counter
    if onStreamPresent = false then
      ⟨{ s with approvalCounter := counter }, .deniedByRules, []⟩
    else
      ⟨{ s with
          approvalCounter := counter,
          pendingApprovals := s.pendingApprovals ++ [approvalId] },
        .suspended approvalId,
        [.approvalRequired approvalId permKind]⟩

/-- `CopilotWorker.resolveApproval` (copilot-worker.ts 456–468): unknown ids
are a no-op; a known id removes the resolver, re-arms the idle timer, and —
when approved with a budget other than `1` — sets `autoApproveBudget` to
`-1` for an unlimited budget or to `max 0 (budget - 1)` otherwise.  The
second component is the response handed to the resolver (`none` when no
resolver ran). -/
def resolveApproval (s : WorkerState) (approvalId : String)
    (response : ApprovalResponse) : WorkerState × Option ApprovalResponse :=
  if approvalId ∈ s.pendingApprovals then
    let s1 := { s with
      pendingApprovals := s.pendingApprovals.erase approvalId,
      timerEpoch := s.timerEpoch + 1 }
    let s2 :=
      if response.approved = true ∧ response.budget ≠ 1 then
        { s1 with autoApproveBudget :=
            if response.budget = -1 then -1 else max 0 (response.budget - 1) }
      else s1
    (s2, some response)
  else (s, none)

/-- `CopilotWorker.clearPendingApprovals` (copilot-worker.ts 470–475): every
pending resolver is called with `{approved: false, budget: 0}` and the map is
cleared.  The second component lists the responses handed to the resolvers. -/
def clearPendingApprovals (s : WorkerState) : WorkerState × List ApprovalResponse :=
  ({ s with pendingApprovals := [] },
   s.pendingApprovals.map fun _ => ⟨false, 0⟩)

/-! ## Idle timer and session events (copilot-worker.ts 120–346) -/

/-- What the idle-timer callback did when it fired. -/
inductive FireResult
  | ignored
  | rearmed
  | rejectedTimeout
deriving DecidableEq, Repr

/-- The `setTimeout` callback inside `resetTimeout` (copilot-worker.ts
125–140): nothing if the turn already resolved; with pending approvals the
timer is re-armed (`resetTimeout(); return`); otherwise the turn is rejected
with a `TIMEOUT` error. -/
def onTimerFire (s : WorkerState) : WorkerState × FireResult :=
  if s.resolved = true then (s, .ignored)
  else if s.pendingApprovals.length > 0 then
    ({ s with timerEpoch := s.timerEpoch + 1 }, .rearmed)
  else
    ({ s with resolved := true, outcome := some (.error .TIMEOUT) }, .rejectedTimeout)

/-- The session events distinguished by the `typedSession.on` handler;
every event type not otherwise modelled (usage, tool activity, …) only
resets the idle timer and is collapsed into `otherEvent`. -/
inductive SessionEvent
  | messageDelta (delta : String)
  | assistantMessage (content : String)
  | idleEvent
  | sessionError (msg : String)
  | otherEvent (eventType : String)
deriving DecidableEq, Repr

/-- The `typedSession.on` event handler (copilot-worker.ts 169–336): a
resolved turn ignores events; otherwise the idle timer is reset first, then
deltas accumulate into `fullContent`, `assistant.message` replaces it,
`session.idle` resolves the turn with the accumulated content, and
`session.error` resolves with the content when any was accumulated and
rejects with `WORKER_EXECUTION` otherwise. -/
def onSessionEvent (s : WorkerState) (e : SessionEvent) : WorkerState :=
  if s.resolved = true then s
  else
    let s := { s with timerEpoch := s.timerEpoch + 1 }
    match e with
    | .messageDelta delta =>
        if delta ≠ "" then { s with fullContent := s.fullContent ++ delta } else s
    | .assistantMessage content =>
        if content ≠ "" then { s with fullContent := content } else s
    | .idleEvent =>
        { s with resolved := true, outcome := some (.ok s.fullContent) }
    | .sessionError _ =>
        if s.fullContent.length > 0 then
          { s with resolved := true, outcome := some (.ok s.fullContent) }
        else
          { s with resolved := true, outcome := some (.error .WORKER_EXECUTION) }
    | .otherEvent _ => s

/-- The `abort` listener on the cancellation token (copilot-worker.ts
146–158): an unresolved turn is rejected with `CANCELLED`. -/
def onAbort (s : WorkerState) : WorkerState :=
  if s.resolved = true then s
  else { s with resolved := true, outcome := some (.error .CANCELLED) }

/-- The `recoverable` flag the catch block puts on the error event
(copilot-worker.ts 396): `errorCode !== 'CANCELLED'`. -/
def recoverableFlag (code : ErrorCode) : Bool :=
  decide (code ≠ ErrorCode.CANCELLED)

/-- Result of the catch block of `execute`. -/
structure CatchResult where
  state : WorkerState
  denials : List ApprovalResponse
  event : StreamEvent
  thrown : ErrorCode
deriving DecidableEq, Repr

/-- The catch block of `CopilotWorker.execute` (copilot-worker.ts 379–405):
clear the pending approvals (denying each), emit an `error` stream event
whose `recoverable` flag is `errorCode !== 'CANCELLED'`, and rethrow with
the same code. -/
def catchBlock (s : WorkerState) (errorCode : ErrorCode) : CatchResult :=
  let cleared := clearPendingApprovals s
  { state := cleared.1
    denials := cleared.2
    event := .errorEvent errorCode (recoverableFlag errorCode)
    thrown := errorCode }

/-- How `execute` finishes once the inner promise settles
(copilot-worker.ts 348–405): a resolved promise emits a `complete` event and
returns the content; a rejected promise runs the catch block, emitting an
`error` event and throwing the code.  `none` while the promise is pending. -/
def turnFinish (s : WorkerState) : Option (List StreamEvent × Except ErrorCode String) :=
  match s.outcome with
  | some (Except.ok content) => some ([.completeEvent content], .ok content)
  | some (Except.error code) =>
      some ([(catchBlock s code).event], .error (catchBlock s code).thrown)
  | none => none

/-- Run a sequence of permission requests (one per raw kind string) through
`onPermissionRequest`, threading the worker state. -/
def runRequests (agentId : String) (toolsEnabled onStreamPresent : Bool) :
    WorkerState → List String → WorkerState × List PermResult
  | s, [] => (s, [])
  | s, k :: ks =>
      let r := onPermissionRequest s agentId k toolsEnabled onStreamPresent
      let rest := runRequests agentId toolsEnabled onStreamPresent r.state ks
      (rest.1, r :: rest.2)

/-! ## ChatApp data model (core/types, projected to the used fields) -/

/-- The `Message.status` values. -/
inductive MessageStatus
  | pending
  | streaming
  | complete
  | sent
  | error
deriving DecidableEq, Repr

/-- A session message, projected to the fields the promotion scan reads.
`timestamp` is the value of `new Date(m.timestamp).getTime()` in
milliseconds. -/
structure Message where
  id : String
  senderId : String
  status : MessageStatus
  timestamp : Int
deriving DecidableEq, Repr

/-- The terminal-status test of the promotion scan:
`status === 'complete' || status === 'sent' || status === 'error'`. -/
def isTerminalStatus (s : MessageStatus) : Bool :=
  s = .complete ∨ s = .sent ∨ s = .error

/-- A plan is opaque to the promotion and approval logic. -/
abbrev Plan := String

/-- A `StaticEntry` of the append-only static log: either a promoted
message or a plan entry with its approval verdict. -/
inductive StaticEntry
  | message (id : String) (msg : Message)
  | plan (id : String) (plan : Plan) (approved : Bool)
deriving DecidableEq, Repr

/-- The `id` field of a static entry. -/
def entryId : StaticEntry → String
  | .message id _ => id
  | .plan id _ _ => id

/-! ## The promotion scan (ChatApp `useEffect`, part_000 lines 111–139) -/

/-- JavaScript `Array.prototype.indexOf`: the index of the first occurrence,
`-1` when absent. -/
def jsIndexOf : List String → String → Int
  | [], _ => -1
  | y :: ys, x =>
      if y = x then 0
      else
        let r := jsIndexOf ys x
        if r = -1 then -1 else r + 1

/-- The sort comparator of the promotion batch (part_000 lines 124–133):
senders absent from the dispatch order (`streamingOrder`) compare by
timestamp among themselves and sort before present senders; present senders
compare by their index in the dispatch order. -/
def promoteCmp (ord : List String) (a b : Message) : Int :=
  let orderA := jsIndexOf ord a.senderId
  let orderB := jsIndexOf ord b.senderId
  if orderA = -1 ∧ orderB = -1 then a.timestamp - b.timestamp
  else if orderA = -1 then -1
  else if orderB = -1 then 1
  else orderA - orderB

/-- `newlyCompleted.sort(comparator)`: JavaScript's `Array.prototype.sort`
is a stable sort consistent with the comparator, which for this comparator
(it is induced by a total preorder) is exactly `List.insertionSort` with the
relation `promoteCmp ord a b ≤ 0`. -/
def sortBatch (ord : List String) (l : List Message) : List Message :=
  l.insertionSort fun a b => promoteCmp ord a b ≤ 0

/-- One iteration of the promotion loop (part_000 lines 113–122), threading
the `staticIds` set (as a list of ids) and the `newlyCompleted` batch. -/
def scanStep (streaming : List String) (acc : List String × List Message)
    (m : Message) : List String × List Message :=
  if m.id ∈ acc.1 then acc
  else if m.id ∈ streaming then acc
  else if isTerminalStatus m.status then (acc.1 ++ [m.id], acc.2 ++ [m])
  else acc

/-- The full promotion loop over the live message list: returns the grown
`staticIds` and the `newlyCompleted` batch in scan order. -/
def promotionScan (streaming : List String) (msgs : List Message)
    (ids : List String) : List String × List Message :=
  msgs.foldl (scanStep streaming) (ids, [])

/-- The promotion state of `ChatApp`: the `staticIds` ref and the
`staticEntries` log. -/
structure PromotionState where
  staticIds : List String
  staticEntries : List StaticEntry
deriving DecidableEq, Repr

/-- The whole promotion `useEffect` (part_000 lines 111–139): scan the
messages, and when the batch is non-empty sort it with the comparator and
append the resulting message entries to the static log. -/
def runPromotion (ord streaming : List String) (msgs : List Message)
    (st : PromotionState) : PromotionState :=
  let scan := promotionScan streaming msgs st.staticIds
  if scan.2.length > 0 then
    { staticIds := scan.1
      staticEntries := st.staticEntries ++
        (sortBatch ord scan.2).map fun m => StaticEntry.message m.id m }
  else
    { st with staticIds := scan.1 }

/-! ## The plan-approval handler (ChatApp `useInput`, part_000 lines 222–255) -/

/-- An orchestrator log message `{kind, content, timestamp}`. -/
structure OrchMessage where
  kind : String
  content : String
  timestamp : Int
deriving DecidableEq, Repr

/-- The pending plan approval `{plan, originalMessage, analysis}`. -/
structure PendingPlanApproval where
  plan : Plan
  originalMessage : String
  analysis : String
deriving DecidableEq, Repr

/-- `PlanProgress{plan, completed, activeAgent}`. -/
structure PlanProgress where
  plan : Plan
  completed : Nat
  activeAgent : Option String
deriving DecidableEq, Repr

/-- The `ChatApp` state the plan-approval handler touches. `dispatched`
records the `sendMessage(message, …, analysis)` calls the handler makes. -/
structure ChatState where
  staticEntries : List StaticEntry
  pendingPlanApproval : Option PendingPlanApproval
  orchestratorMessages : List OrchMessage
  planProgress : Option PlanProgress
  dispatched : List (String × String)
deriving DecidableEq, Repr

/-- JavaScript `String.prototype.toLowerCase`, character-wise. -/
def jsToLower (s : String) : String := ⟨s.data.map Char.toLower⟩

/-- The plan-approval `useInput` handler (part_000 lines 222–255), active
only while a plan approval is pending (`isActive`); `now` is `Date.now()`.
Inputs other than y/n are ignored; on a verdict the plan entry is appended
to the static log, the pending approval is cleared, and either a rejection
status is logged and `PlanProgress` cleared (deny) or an approval status is
logged, `PlanProgress` initialized and the original message re-dispatched
with the orchestrator analysis (approve). -/
def planApprovalInput (now : Int) (st : ChatState) (input : String) : ChatState :=
  match st.pendingPlanApproval with
  | none => st
  | some approval =>
      let lower := jsToLower input
      if lower ≠ "y" ∧ lower ≠ "n" then st
      else
        let approved := lower = "y"
        let planId := "plan-" ++ decimalRepr now.toNat
        let st1 := { st with
          staticEntries := st.staticEntries ++ [StaticEntry.plan planId approval.plan approved]
          pendingPlanApproval := none }
        if approved = false then
          { st1 with
            orchestratorMessages := st1.orchestratorMessages ++
              [OrchMessage.mk "status" "Plan rejected by user." now]
            planProgress := none }
        else
          { st1 with
            orchestratorMessages := st1.orchestratorMessages ++
              [OrchMessage.mk "status" "Plan approved. Executing..." now]
            planProgress := some ⟨approval.plan, 0, none⟩
            dispatched := st1.dispatched ++
              [(approval.originalMessage, approval.analysis)] }

/-! ## Helper lemmas: injectivity of the approval-id encoding -/

theorem digitChar_injOn : ∀ d < 10, ∀ e < 10, digitChar d = digitChar e → d = e := by
  decide

theorem map_digitChar_injOn : ∀ l₁ l₂ : List Nat, (∀ d ∈ l₁, d < 10) →
    (∀ d ∈ l₂, d < 10) → l₁.map digitChar = l₂.map digitChar → l₁ = l₂ := by
  intro l₁
  induction l₁ with
  | nil => intro l₂ _ _ h; cases l₂ <;> simp_all
  | cons a t ih =>
    intro l₂ h₁ h₂ h
    cases l₂ with
    | nil => simp_all
    | cons b t₂ =>
      simp only [List.map_cons, List.cons.injEq] at h
      have ha := digitChar_injOn a (h₁ a (by simp)) b (h₂ b (by simp)) h.1
      have ht := ih t₂ (fun d hd => h₁ d (by simp [hd])) (fun d hd => h₂ d (by simp [hd])) h.2
      simp [ha, ht]

theorem decimalRepr_injOn {m n : Nat} (hm : 0 < m) (hn : 0 < n)
    (h : decimalRepr m = decimalRepr n) : m = n := by
  unfold decimalRepr at h
  rw [if_neg (Nat.pos_iff_ne_zero.mp hm), if_neg (Nat.pos_iff_ne_zero.mp hn)] at h
  have hdata : ((Nat.digits 10 m).map digitChar).reverse =
      ((Nat.digits 10 n).map digitChar).reverse := congrArg String.data h
  have hmap := List.reverse_injective hdata
  have hdig := map_digitChar_injOn _ _
    (fun d hd => Nat.digits_lt_base (by norm_num) hd)
    (fun d hd => Nat.digits_lt_base (by norm_num) hd) hmap
  exact Nat.digits_inj_iff.mp hdig

theorem mkApprovalId_injOn (agentId : String) {m n : Nat} (hm : 0 < m)
    (hn : 0 < n) (h : mkApprovalId agentId m = mkApprovalId agentId n) : m = n := by
  unfold mkApprovalId at h
  have hdata := congrArg String.data h
  simp only [String.data_append] at hdata
  have := List.append_cancel_left hdata
  exact decimalRepr_injOn hm hn (String.ext this)

/-! ## Helper lemmas: the approval gate -/

theorem onPermissionRequest_budget_pos (s : WorkerState) (agentId kind : String)
    (hk : mapPermissionKind kind ≠ .read) (hb : 0 < s.autoApproveBudget) :
    onPermissionRequest s agentId kind true true =
      ⟨{ s with autoApproveBudget := s.autoApproveBudget - 1 }, .approved, []⟩ := by
  unfold onPermissionRequest
  simp [hk, hb, hb.ne']

theorem onPermissionRequest_budget_neg (s : WorkerState) (agentId kind : String)
    (hk : mapPermissionKind kind ≠ .read) (hb : s.autoApproveBudget < 0) :
    onPermissionRequest s agentId kind true true = ⟨s, .approved, []⟩ := by
  unfold onPermissionRequest
  simp [hk, hb.ne, not_lt.mpr hb.le]

theorem onPermissionRequest_prompt (s : WorkerState) (agentId kind : String)
    (hk : mapPermissionKind kind ≠ .read) (hb : s.autoApproveBudget = 0) :
    onPermissionRequest s agentId kind true true =
      ⟨{ s with
          approvalCounter := s.approvalCounter + 1,
          pendingApprovals :=
            s.pendingApprovals ++ [mkApprovalId agentId (s.approvalCounter + 1)] },
        .suspended (mkApprovalId agentId (s.approvalCounter + 1)),
        [.approvalRequired (mkApprovalId agentId (s.approvalCounter + 1))
          (mapPermissionKind kind)]⟩ := by
  unfold onPermissionRequest
  simp [hk, hb]

theorem runRequests_budget_pos (agentId : String) (kinds : List String) :
    ∀ (s : WorkerState) (k : Nat), s.autoApproveBudget = (k : Int) →
    kinds.length ≤ k → (∀ x ∈ kinds, mapPermissionKind x ≠ .read) →
    (∀ r ∈ (runRequests agentId true true s kinds).2,
        r.decision = .approved ∧ r.emitted = []) ∧
    (runRequests agentId true true s kinds).1 =
      { s with autoApproveBudget := ((k - kinds.length : Nat) : Int) } := by
  induction kinds with
  | nil =>
    intro s k hb _ _
    simp [runRequests, ← hb]
  | cons x ks ih =>
    intro s k hb hlen hkinds
    have hk1 : 1 ≤ k := le_trans (by simp) hlen
    have hpos : 0 < s.autoApproveBudget := by
      rw [hb]; exact_mod_cast hk1
    have hstep := onPermissionRequest_budget_pos s agentId x
      (hkinds x (by simp)) hpos
    have hb' : ({ s with autoApproveBudget := s.autoApproveBudget - 1 }
        : WorkerState).autoApproveBudget = ((k - 1 : Nat) : Int) := by
      simp [hb]
      omega
    have hrec := ih { s with autoApproveBudget := s.autoApproveBudget - 1 }
      (k - 1) hb' (by simpa using Nat.le_sub_one_of_lt (lt_of_lt_of_le (by simp) hlen))
      (fun y hy => hkinds y (by simp [hy]))
    constructor
    · intro r hr
      simp only [runRequests, hstep] at hr
      rcases List.mem_cons.mp hr with h | h
      · simp [h]
      · exact hrec.1 r h
    · simp only [runRequests, hstep]
      rw [hrec.2]
      simp only [List.length_cons]
      congr 1
      omega

theorem runRequests_budget_unlimited (agentId : String) (kinds : List String) :
    ∀ s : WorkerState, s.autoApproveBudget = -1 →
    (∀ x ∈ kinds, mapPermissionKind x ≠ .read) →
    (∀ r ∈ (runRequests agentId true true s kinds).2,
        r.decision = .approved ∧ r.emitted = []) ∧
    (runRequests agentId true true s kinds).1 = s := by
  induction kinds with
  | nil => intro s _ _; simp [runRequests]
  | cons x ks ih =>
    intro s hb hkinds
    have hstep := onPermissionRequest_budget_neg s agentId x
      (hkinds x (by simp)) (by rw [hb]; norm_num)
    have hrec := ih s hb (fun y hy => hkinds y (by simp [hy]))
    constructor
    · intro r hr
      simp only [runRequests, hstep] at hr
      rcases List.mem_cons.mp hr with h | h
      · simp [h]
      · exact hrec.1 r h
    · simp only [runRequests, hstep]
      exact hrec.2

theorem resolveApproval_budget (s : WorkerState) (aid : String) (b : Int)
    (hpend : aid ∈ s.pendingApprovals) (hb1 : b ≠ 1) :
    resolveApproval s aid ⟨true, b⟩ =
      ({ s with
          pendingApprovals := s.pendingApprovals.erase aid,
          timerEpoch := s.timerEpoch + 1,
          autoApproveBudget := if b = -1 then -1 else max 0 (b - 1) },
        some ⟨true, b⟩) := by
  cases s
  simp [resolveApproval, hpend, hb1]

/-- C1: resolving an approval as approved with budget `N > 1` auto-approves
the next `N-1` permission requests from that worker without emitting a new
`approval_required` event, after which the gate prompts again; budget `-1`
auto-approves every subsequent permission request; budget `1` (or default)
authorizes only the current call, so the very next request prompts again.
`kinds` (of length `N-1`), `kindsU` and `kNext` are the raw kinds of the
subsequent requests; they must reach the gate (map to a non-read kind, with
tools enabled and a stream attached), since read requests bypass it. -/
theorem approval_budget_semantics
    (s : WorkerState) (agentId aid : String) (N : Nat)
    (kinds kindsU : List String) (kNext : String)
    (hpend : aid ∈ s.pendingApprovals)
    (hb0 : s.autoApproveBudget = 0)
    (hN : 2 ≤ N) (hlen : kinds.length = N - 1)
    (hkinds : ∀ x ∈ kinds, mapPermissionKind x ≠ .read)
    (hkindsU : ∀ x ∈ kindsU, mapPermissionKind x ≠ .read)
    (hkNext : mapPermissionKind kNext ≠ .read) :
    (∀ r ∈ (runRequests agentId true true
        (resolveApproval s aid ⟨true, (N : Int)⟩).1 kinds).2,
      r.decision = .approved ∧ r.emitted = []) ∧
    (onPermissionRequest
        (runRequests agentId true true
          (resolveApproval s aid ⟨true, (N : Int)⟩).1 kinds).1
        agentId kNext true true).decision =
      .suspended (mkApprovalId agentId (s.approvalCounter + 1)) ∧
    (onPermissionRequest
        (runRequests agentId true true
          (resolveApproval s aid ⟨true, (N : Int)⟩).1 kinds).1
        agentId kNext true true).emitted =
      [.approvalRequired (mkApprovalId agentId (s.approvalCounter + 1))
        (mapPermissionKind kNext)] ∧
    (∀ r ∈ (runRequests agentId true true
        (resolveApproval s aid ⟨true, -1⟩).1 kindsU).2,
      r.decision = .approved ∧ r.emitted = []) ∧
    (onPermissionRequest (resolveApproval s aid ⟨true, 1⟩).1
        agentId kNext true true).decision =
      .suspended (mkApprovalId agentId (s.approvalCounter + 1)) := by
  have hN1 : (N : Int) ≠ 1 := by omega
  have hNneg : (N : Int) ≠ -1 := by omega
  have hresN := resolveApproval_budget s aid (N : Int) hpend hN1
  have hmax : (if (N : Int) = -1 then (-1 : Int) else max 0 ((N : Int) - 1)) =
      ((N - 1 : Nat) : Int) := by
    rw [if_neg hNneg, max_eq_right (by omega)]
    omega
  rw [hmax] at hresN
  have hrun := runRequests_budget_pos agentId kinds
    (resolveApproval s aid ⟨true, (N : Int)⟩).1 (N - 1)
    (by rw [hresN]) (by omega) hkinds
  have hfinalb : (runRequests agentId true true
      (resolveApproval s aid ⟨true, (N : Int)⟩).1 kinds).1.autoApproveBudget = 0 := by
    rw [hrun.2]
    simp [hlen]
  have hfinalc : (runRequests agentId true true
      (resolveApproval s aid ⟨true, (N : Int)⟩).1 kinds).1.approvalCounter =
      s.approvalCounter := by
    rw [hrun.2, hresN]
  have hprompt := onPermissionRequest_prompt
    (runRequests agentId true true
      (resolveApproval s aid ⟨true, (N : Int)⟩).1 kinds).1
    agentId kNext hkNext hfinalb
  have hresU := resolveApproval_budget s aid (-1) hpend (by norm_num)
  have hrunU := runRequests_budget_unlimited agentId kindsU
    (resolveApproval s aid ⟨true, -1⟩).1 (by rw [hresU]; norm_num) hkindsU
  have hres1 : resolveApproval s aid ⟨true, 1⟩ =
      ({ s with
          pendingApprovals := s.pendingApprovals.erase aid,
          timerEpoch := s.timerEpoch + 1 }, some ⟨true, 1⟩) := by
    cases s
    simp [resolveApproval, hpend]
  have hprompt1 := onPermissionRequest_prompt (resolveApproval s aid ⟨true, 1⟩).1
    agentId kNext hkNext (by rw [hres1]; exact hb0)
  refine ⟨hrun.1, ?_, ?_, hrunU.1, ?_⟩
  · rw [hprompt, hfinalc]
  · rw [hprompt, hfinalc]
  · rw [hprompt1, hres1]

/-- Witness for C1: a concrete worker with one pending approval `"a-perm-1"`,
resolved with budget 2; the one pre-authorized follow-up request `"shell"`
is consumed, and the next `"shell"` request prompts with the fresh id
`"a-perm-2"`. -/
theorem approval_budget_semantics_witness :
    (onPermissionRequest
        (runRequests "a" true true
          (resolveApproval ⟨0, ["a-perm-1"], 1, 0, false, none, ""⟩
            "a-perm-1" ⟨true, (2 : Int)⟩).1 ["shell"]).1
        "a" "shell" true true).decision =
      .suspended (mkApprovalId "a" 2) :=
  (approval_budget_semantics ⟨0, ["a-perm-1"], 1, 0, false, none, ""⟩
    "a" "a-perm-1" 2 ["shell"] [] "shell"
    (by simp) rfl (by norm_num) rfl
    (by intro x hx; simp at hx; subst hx; decide)
    (by simp) (by decide)).2.1

/-- C7: approval ids embed a counter that strictly increases with each
request that reaches the gate, so ids minted from different counter values
are distinct; resolving an unknown (never-issued, already-resolved or
duplicate) id changes nothing: no resolver runs, the budget is untouched
and the idle timer is not reset. -/
theorem approval_id_unique_and_unknown_noop
    (s : WorkerState) (agentId kind aid : String) (osp : Bool)
    (m n : Nat) (r : ApprovalResponse)
    (hk : mapPermissionKind kind ≠ .read)
    (hb : s.autoApproveBudget = 0)
    (hm : 0 < m) (hn : 0 < n) (hmn : m ≠ n)
    (hunknown : aid ∉ s.pendingApprovals) :
    (onPermissionRequest s agentId kind true osp).state.approvalCounter =
      s.approvalCounter + 1 ∧
    mkApprovalId agentId m ≠ mkApprovalId agentId n ∧
    resolveApproval s aid r = (s, none) := by
  refine ⟨?_, fun h => hmn (mkApprovalId_injOn agentId hm hn h), ?_⟩
  · unfold onPermissionRequest
    cases osp <;> simp [hk, hb]
  · simp [resolveApproval, hunknown]

/-- Witness for C7: with one approval `"a-perm-1"` outstanding, the ids for
counters 1 and 2 differ, and resolving the unknown id `"zzz"` is a no-op. -/
theorem approval_id_unique_and_unknown_noop_witness :
    mkApprovalId "a" 1 ≠ mkApprovalId "a" 2 ∧
    resolveApproval ⟨0, ["a-perm-1"], 1, 0, false, none, ""⟩ "zzz" ⟨true, 5⟩ =
      (⟨0, ["a-perm-1"], 1, 0, false, none, ""⟩, none) := by
  have h := approval_id_unique_and_unknown_noop
    ⟨0, ["a-perm-1"], 1, 0, false, none, ""⟩ "a" "shell" "zzz" true 1 2 ⟨true, 5⟩
    (by decide) rfl (by norm_num) (by norm_num) (by norm_num) (by simp)
  exact ⟨h.2.1, h.2.2⟩

/-- C8: every raw permission-kind string maps into the five-element
`PermissionKind` type, and any string that is not one of the recognized
aliases maps to the most restrictive kind, `write`. -/
theorem permission_kind_mapping_total (k other : String)
    (h : recognizedKind k = false) :
    (mapPermissionKind other = .shell ∨ mapPermissionKind other = .write ∨
     mapPermissionKind other = .read ∨ mapPermissionKind other = .mcp ∨
     mapPermissionKind other = .url) ∧
    mapPermissionKind k = .write := by
  constructor
  · cases h' : mapPermissionKind other <;> simp
  · have h' := of_decide_eq_false h
    push_neg at h'
    obtain ⟨h1, h2, h3, h4, h5, h6, h7, h8, h9, h10⟩ := h'
    simp [mapPermissionKind, h1, h2, h3, h4, h5, h6, h7, h8, h9, h10]

/-- Witness for C8: `"banana"` is unrecognized and maps to `write`. -/
theorem permission_kind_mapping_total_witness :
    recognizedKind "banana" = false ∧ mapPermissionKind "banana" = .write :=
  ⟨by decide, (permission_kind_mapping_total "banana" "command" (by decide)).2⟩

/-- C9: a permission request whose kind maps to `read` is approved
immediately — the state (budget, counter, pending map) is untouched and no
`approval_required` event is emitted — and only non-read kinds can reach the
suspended (user-facing) gate. -/
theorem read_fast_path (s : WorkerState) (agentId kind kind2 aid2 : String)
    (te osp te2 osp2 : Bool)
    (hk : mapPermissionKind kind = .read) :
    onPermissionRequest s agentId kind te osp = ⟨s, .approved, []⟩ ∧
    ((onPermissionRequest s agentId kind2 te2 osp2).decision = .suspended aid2 →
      mapPermissionKind kind2 ≠ .read) := by
  constructor
  · unfold onPermissionRequest
    simp [hk]
  · intro hd hk2
    unfold onPermissionRequest at hd
    simp [hk2] at hd

/-- Witness for C9: a `"file-read"` request with a positive auto-approve
budget of 5 is approved with the state — budget included — unchanged. -/
theorem read_fast_path_witness :
    onPermissionRequest ⟨5, [], 3, 0, false, none, ""⟩ "a" "file-read" true true =
      ⟨⟨5, [], 3, 0, false, none, ""⟩, .approved, []⟩ :=
  (read_fast_path ⟨5, [], 3, 0, false, none, ""⟩ "a" "file-read" "x" "y"
    true true true true (by decide)).1

/-- C4: the idle timer is re-armed on every session event received while the
turn is unresolved; when the timer fires with an approval pending the turn
is not failed and the timer is re-armed; when it fires with no pending
approval the turn is rejected with `TIMEOUT` (distinct from `CANCELLED`);
resolving a pending approval re-arms the timer. -/
theorem idle_timer_semantics (s : WorkerState) (e : SessionEvent)
    (aid : String) (r : ApprovalResponse)
    (hr : s.resolved = false) :
    (onSessionEvent s e).timerEpoch = s.timerEpoch + 1 ∧
    (s.pendingApprovals ≠ [] →
      (onTimerFire s).1.resolved = false ∧
      (onTimerFire s).1.outcome = s.outcome ∧
      (onTimerFire s).1.timerEpoch = s.timerEpoch + 1 ∧
      (onTimerFire s).2 = .rearmed) ∧
    (s.pendingApprovals = [] →
      (onTimerFire s).1.outcome = some (.error .TIMEOUT) ∧
      (onTimerFire s).2 = .rejectedTimeout ∧
      ErrorCode.TIMEOUT ≠ ErrorCode.CANCELLED) ∧
    (aid ∈ s.pendingApprovals →
      (resolveApproval s aid r).1.timerEpoch = s.timerEpoch + 1) := by
  refine ⟨?_, ?_, ?_, ?_⟩
  · unfold onSessionEvent
    rw [if_neg (by simp [hr])]
    cases e <;> simp <;> split <;> simp
  · intro h
    unfold onTimerFire
    rw [if_neg (by simp [hr]), if_pos (by simpa using List.length_pos.mpr h)]
    simp [hr]
  · intro h
    unfold onTimerFire
    rw [if_neg (by simp [hr]), if_neg (by simp [h])]
    simp
  · intro h
    unfold resolveApproval
    rw [if_pos h]
    split <;> simp

/-- Witness for C4: a fire with `"a-perm-1"` pending re-arms; a fire with
nothing pending rejects with `TIMEOUT`; a delta event bumps the timer. -/
theorem idle_timer_semantics_witness :
    (onTimerFire ⟨0, ["a-perm-1"], 1, 7, false, none, ""⟩).2 = .rearmed ∧
    (onTimerFire ⟨0, [], 1, 7, false, none, ""⟩).2 = .rejectedTimeout ∧
    (onSessionEvent ⟨0, [], 1, 7, false, none, ""⟩
      (.messageDelta "hi")).timerEpoch = 8 := by
  have h1 := idle_timer_semantics ⟨0, ["a-perm-1"], 1, 7, false, none, ""⟩
    (.messageDelta "hi") "a-perm-1" ⟨true, 1⟩ rfl
  have h2 := idle_timer_semantics ⟨0, [], 1, 7, false, none, ""⟩
    (.messageDelta "hi") "x" ⟨true, 1⟩ rfl
  exact ⟨(h1.2.1 (by simp)).2.2.2, (h2.2.2.1 rfl).2.1, h2.1⟩

/-- C5: when a worker turn ends in an error (cancellation included), the
catch block resolves every pending approval as denied and empties the map,
and the emitted error event is non-recoverable exactly for `CANCELLED`. -/
theorem turn_error_denies_pending (s : WorkerState) (code : ErrorCode) :
    (catchBlock s code).state.pendingApprovals = [] ∧
    (catchBlock s code).denials.length = s.pendingApprovals.length ∧
    (∀ d ∈ (catchBlock s code).denials, d.approved = false) ∧
    (catchBlock s code).event = .errorEvent code (recoverableFlag code) ∧
    (recoverableFlag code = false ↔ code = .CANCELLED) := by
  refine ⟨rfl, by simp [catchBlock, clearPendingApprovals], ?_, rfl, ?_⟩
  · intro d hd
    simp only [catchBlock, clearPendingApprovals, List.mem_map] at hd
    obtain ⟨a, -, ha⟩ := hd
    rw [← ha]
  · simp [recoverableFlag]

/-- C10: a `session.error` arriving after content has accumulated resolves
the turn successfully with that content — `execute` then emits `complete`
and returns, with no error event and no throw; with empty content the turn
is rejected with `WORKER_EXECUTION` (a recoverable error). -/
theorem session_error_content_preserved (s : WorkerState) (msg : String)
    (hr : s.resolved = false) :
    (0 < s.fullContent.length →
      (onSessionEvent s (.sessionError msg)).outcome = some (.ok s.fullContent) ∧
      turnFinish (onSessionEvent s (.sessionError msg)) =
        some ([.completeEvent s.fullContent], .ok s.fullContent)) ∧
    (s.fullContent.length = 0 →
      (onSessionEvent s (.sessionError msg)).outcome =
        some (.error .WORKER_EXECUTION) ∧
      turnFinish (onSessionEvent s (.sessionError msg)) =
        some ([.errorEvent .WORKER_EXECUTION true], .error .WORKER_EXECUTION)) := by
  constructor
  · intro hc
    have ho : (onSessionEvent s (.sessionError msg)).outcome =
        some (.ok s.fullContent) := by
      unfold onSessionEvent
      rw [if_neg (by simp [hr])]
      simp [hc]
    exact ⟨ho, by rw [turnFinish, ho]⟩
  · intro hc
    have ho : (onSessionEvent s (.sessionError msg)).outcome =
        some (.error .WORKER_EXECUTION) := by
      unfold onSessionEvent
      rw [if_neg (by simp [hr])]
      simp [hc]
    refine ⟨ho, ?_⟩
    rw [turnFinish, ho]
    simp [catchBlock, recoverableFlag]

/-- Witness for C10: with content `"hello"` accumulated the error resolves
the turn with `"hello"`; with no content it rejects with
`WORKER_EXECUTION`. -/
theorem session_error_content_preserved_witness :
    (onSessionEvent ⟨0, [], 0, 0, false, none, "hello"⟩
      (.sessionError "boom")).outcome = some (.ok "hello") ∧
    (onSessionEvent ⟨0, [], 0, 0, false, none, ""⟩
      (.sessionError "boom")).outcome = some (.error .WORKER_EXECUTION) :=
  ⟨((session_error_content_preserved ⟨0, [], 0, 0, false, none, "hello"⟩
      "boom" rfl).1 (by decide)).1,
   ((session_error_content_preserved ⟨0, [], 0, 0, false, none, ""⟩
      "boom" rfl).2 rfl).1⟩

/-- C6: approving a pending plan appends an approved plan entry to the
static log, initializes `PlanProgress{plan, 0, null}`, re-dispatches the
original message with the orchestrator analysis and clears the pending
approval; denying appends a rejected plan entry, logs a rejection status,
clears `PlanProgress` and dispatches nothing. -/
theorem plan_approval_resolution (st : ChatState) (a : PendingPlanApproval)
    (now : Int) (h : st.pendingPlanApproval = some a) :
    planApprovalInput now st "y" = { st with
      staticEntries := st.staticEntries ++
        [StaticEntry.plan ("plan-" ++ decimalRepr now.toNat) a.plan true]
      pendingPlanApproval := none
      orchestratorMessages := st.orchestratorMessages ++
        [OrchMessage.mk "status" "Plan approved. Executing..." now]
      planProgress := some ⟨a.plan, 0, none⟩
      dispatched := st.dispatched ++ [(a.originalMessage, a.analysis)] } ∧
    planApprovalInput now st "n" = { st with
      staticEntries := st.staticEntries ++
        [StaticEntry.plan ("plan-" ++ decimalRepr now.toNat) a.plan false]
      pendingPlanApproval := none
      orchestratorMessages := st.orchestratorMessages ++
        [OrchMessage.mk "status" "Plan rejected by user." now]
      planProgress := none } := by
  have hy : jsToLower "y" = "y" := by decide
  have hn : jsToLower "n" = "n" := by decide
  have hyn : jsToLower "n" ≠ "y" := by decide
  cases st
  simp only at h
  subst h
  constructor
  · simp [planApprovalInput, hy]
  · simp [planApprovalInput, hn, hyn]

/-- Witness for C6: a concrete pending plan, approved with `y`. -/
theorem plan_approval_resolution_witness :
    planApprovalInput 1700
      ⟨[], some ⟨"theplan", "origmsg", "why"⟩, [], none, []⟩ "y" =
      ⟨[StaticEntry.plan ("plan-" ++ decimalRepr (1700 : Int).toNat) "theplan" true],
        none,
        [OrchMessage.mk "status" "Plan approved. Executing..." 1700],
        some ⟨"theplan", 0, none⟩,
        [("origmsg", "why")]⟩ :=
  (plan_approval_resolution ⟨[], some ⟨"theplan", "origmsg", "why"⟩, [], none, []⟩
    ⟨"theplan", "origmsg", "why"⟩ 1700 rfl).1

/-! ## Helper lemmas: the promotion scan -/

theorem promotionScan_newly_sound (streaming : List String) (msgs : List Message)
    (ids0 : List String) :
    ∀ (ids : List String) (newly : List Message),
    (∀ m ∈ newly, m.id ∉ ids0 ∧ isTerminalStatus m.status = true ∧ m.id ∉ streaming) →
    ids0 ⊆ ids →
    ∀ m ∈ (msgs.foldl (scanStep streaming) (ids, newly)).2,
      m.id ∉ ids0 ∧ isTerminalStatus m.status = true ∧ m.id ∉ streaming := by
  induction msgs with
  | nil => intro ids newly hnew _ m hm; exact hnew m hm
  | cons x xs ih =>
    intro ids newly hnew hsub m hm
    rw [List.foldl_cons] at hm
    by_cases h1 : x.id ∈ ids
    · rw [show scanStep streaming (ids, newly) x = (ids, newly) from by
        simp [scanStep, h1]] at hm
      exact ih ids newly hnew hsub m hm
    · by_cases h2 : x.id ∈ streaming
      · rw [show scanStep streaming (ids, newly) x = (ids, newly) from by
          simp [scanStep, h1, h2]] at hm
        exact ih ids newly hnew hsub m hm
      · by_cases h3 : isTerminalStatus x.status = true
        · rw [show scanStep streaming (ids, newly) x = (ids ++ [x.id], newly ++ [x]) from by
            simp [scanStep, h1, h2, h3]] at hm
          refine ih (ids ++ [x.id]) (newly ++ [x]) ?_
            (hsub.trans (List.subset_append_left _ _)) m hm
          intro m' hm'
          rcases List.mem_append.mp hm' with h | h
          · exact hnew m' h
          · simp only [List.mem_singleton] at h
            subst h
            exact ⟨fun hx => h1 (hsub hx), h3, h2⟩
        · rw [show scanStep streaming (ids, newly) x = (ids, newly) from by
            simp [scanStep, h1, h2, h3]] at hm
          exact ih ids newly hnew hsub m hm

/-- C3: once a message id is in the promoted-ids set, a later promotion scan
over any message list appends no second entry with that id (the count of its
static-log entries is unchanged); and every message a scan promotes has a
terminal status, is not referenced by an active stream, and was not already
promoted. -/
theorem promotion_idempotent_and_guarded (ord streaming : List String)
    (msgs : List Message) (st : PromotionState) (mid : String)
    (hmid : mid ∈ st.staticIds) :
    (runPromotion ord streaming msgs st).staticEntries.countP
        (fun e => decide (entryId e = mid)) =
      st.staticEntries.countP (fun e => decide (entryId e = mid)) ∧
    ∀ m ∈ (promotionScan streaming msgs st.staticIds).2,
      isTerminalStatus m.status = true ∧ m.id ∉ streaming ∧ m.id ∉ st.staticIds := by
  have hsound := promotionScan_newly_sound streaming msgs st.staticIds
    st.staticIds [] (by simp) (fun a ha => ha)
  constructor
  · simp only [runPromotion]
    split
    · simp only [List.countP_append]
      have hzero : ((sortBatch ord (promotionScan streaming msgs st.staticIds).2).map
          fun m => StaticEntry.message m.id m).countP
            (fun e => decide (entryId e = mid)) = 0 := by
        rw [List.countP_eq_zero]
        intro e he
        simp only [List.mem_map] at he
        obtain ⟨m, hm, rfl⟩ := he
        have hmem : m ∈ (promotionScan streaming msgs st.staticIds).2 := by
          rw [sortBatch, List.mem_insertionSort] at hm
          exact hm
        have hnot := (hsound m hmem).1
        simp only [entryId, decide_eq_true_eq]
        intro heq
        exact hnot (heq ▸ hmid)
      rw [hzero, Nat.add_zero]
    · rfl
  · intro m hm
    exact ⟨(hsound m hm).2.1, (hsound m hm).2.2, (hsound m hm).1⟩

/-- Witness for C3: `"m0"` is already promoted; re-scanning a list that
still contains the completed `"m0"` leaves its entry count at one. -/
theorem promotion_idempotent_and_guarded_witness :
    (runPromotion [] [] [⟨"m0", "s", .complete, 0⟩]
        ⟨["m0"], [.message "m0" ⟨"m0", "s", .complete, 0⟩]⟩).staticEntries.countP
        (fun e => decide (entryId e = "m0")) =
      (⟨["m0"], [.message "m0" ⟨"m0", "s", .complete, 0⟩]⟩
        : PromotionState).staticEntries.countP
        (fun e => decide (entryId e = "m0")) :=
  (promotion_idempotent_and_guarded [] [] [⟨"m0", "s", .complete, 0⟩]
    ⟨["m0"], [.message "m0" ⟨"m0", "s", .complete, 0⟩]⟩ "m0" (by simp)).1

/-! ## Helper lemmas: the promotion-batch comparator -/

theorem jsIndexOf_ge (l : List String) (x : String) : -1 ≤ jsIndexOf l x := by
  induction l with
  | nil => simp [jsIndexOf]
  | cons y ys ih =>
    unfold jsIndexOf
    by_cases h : y = x
    · simp [h]
    · simp only [h, if_false]
      split <;> omega

/-- The sort key that `promoteCmp` is induced by: senders absent from the
dispatch order form the earlier bucket keyed by timestamp; present senders
form the later bucket keyed by their index. -/
def codeKey (ord : List String) (m : Message) : Nat × Int :=
  if jsIndexOf ord m.senderId = -1 then (0, m.timestamp)
  else (1, jsIndexOf ord m.senderId)

/-- Lexicographic order on the sort keys. -/
def keyLe (a b : Nat × Int) : Prop :=
  a.1 < b.1 ∨ (a.1 = b.1 ∧ a.2 ≤ b.2)

instance : DecidableRel keyLe := fun a b => by
  unfold keyLe; exact inferInstance

theorem promoteCmp_le_iff (ord : List String) (a b : Message) :
    promoteCmp ord a b ≤ 0 ↔ keyLe (codeKey ord a) (codeKey ord b) := by
  have ha := jsIndexOf_ge ord a.senderId
  have hb := jsIndexOf_ge ord b.senderId
  unfold promoteCmp codeKey keyLe
  by_cases h1 : jsIndexOf ord a.senderId = -1 <;>
    by_cases h2 : jsIndexOf ord b.senderId = -1 <;>
      simp only [h1, h2, if_true, if_false, ite_true, ite_false, and_self,
        and_false, false_and, true_and, not_true, not_false_iff] <;>
      omega

theorem keyLe_total (a b : Nat × Int) : keyLe a b ∨ keyLe b a := by
  unfold keyLe; omega

theorem keyLe_trans (a b c : Nat × Int) : keyLe a b → keyLe b c → keyLe a c := by
  unfold keyLe; omega

theorem keyLe_refl (a : Nat × Int) : keyLe a a := by
  unfold keyLe; omega

/-- The ordering the claim asserts for a promoted batch, written from the
spec sentence: first by the sender's position in the turn's dispatch order,
any ties broken by the original timestamps ascending. -/
def claimBatchLe (ord : List String) (a b : Message) : Prop :=
  jsIndexOf ord a.senderId < jsIndexOf ord b.senderId ∨
  (jsIndexOf ord a.senderId = jsIndexOf ord b.senderId ∧ a.timestamp ≤ b.timestamp)

/-- C2 counterexample: two messages from the same dispatched sender `"s"`
complete in one batch with timestamps 5 and 3 (in that scan order).  The
code appends them in scan order `[ts 5, ts 3]` — the comparator returns 0
for equal dispatch positions and the stable sort keeps the scan order — so
the appended batch is not ordered with ties broken by ascending timestamp,
refuting the claim. -/
theorem promotion_tiebreak_counterexample :
    (runPromotion ["s"] [] [⟨"m1", "s", .complete, 5⟩, ⟨"m2", "s", .complete, 3⟩]
        ⟨[], []⟩).staticEntries =
      [.message "m1" ⟨"m1", "s", .complete, 5⟩,
       .message "m2" ⟨"m2", "s", .complete, 3⟩] ∧
    ¬ List.Pairwise (claimBatchLe ["s"])
        [(⟨"m1", "s", .complete, 5⟩ : Message), ⟨"m2", "s", .complete, 3⟩] := by
  constructor
  · rfl
  · intro h
    have := List.rel_of_pairwise_cons h (List.mem_singleton.mpr rfl)
    rcases this with h' | h' <;> revert h' <;> decide

/-- C2 (amended): a promoted batch is appended sorted by the comparator's
key — senders absent from the dispatch order first, ordered by timestamp
among themselves, then present senders by dispatch position — and messages
with equal keys (in particular two messages from the same sender) keep
their scan order, not timestamp order.  Stated as: the appended batch is a
permutation of the scan batch, pairwise non-decreasing under the
comparator, and its subsequence at any fixed key equals the scan batch's
subsequence at that key (stability); the promotion effect appends exactly
the comparator-sorted batch. -/
theorem promotion_batch_order (ord streaming : List String) (l : List Message)
    (msgs : List Message) (st : PromotionState) (k : Nat × Int) :
    List.Perm (sortBatch ord l) l ∧
    List.Pairwise (fun a b => promoteCmp ord a b ≤ 0) (sortBatch ord l) ∧
    (sortBatch ord l).filter (fun m => decide (codeKey ord m = k)) =
      l.filter (fun m => decide (codeKey ord m = k)) ∧
    (runPromotion ord streaming msgs st).staticEntries =
      st.staticEntries ++
        (sortBatch ord (promotionScan streaming msgs st.staticIds).2).map
          (fun m => StaticEntry.message m.id m) := by
  haveI instTotal : IsTotal Message (fun a b => promoteCmp ord a b ≤ 0) :=
    ⟨fun a b => by
      rw [promoteCmp_le_iff, promoteCmp_le_iff]
      exact keyLe_total _ _⟩
  haveI instTrans : IsTrans Message (fun a b => promoteCmp ord a b ≤ 0) :=
    ⟨fun a b c hab hbc => by
      rw [promoteCmp_le_iff] at hab hbc ⊢
      exact keyLe_trans _ _ _ hab hbc⟩
  refine ⟨List.perm_insertionSort _ l, List.sorted_insertionSort _ l, ?_, ?_⟩
  · have hp : ∀ x ∈ l.filter (fun m => decide (codeKey ord m = k)),
        ∀ y ∈ l.filter (fun m => decide (codeKey ord m = k)),
        promoteCmp ord x y ≤ 0 := by
      intro x hx y hy
      have hxk : codeKey ord x = k := by simpa using (List.mem_filter.mp hx).2
      have hyk : codeKey ord y = k := by simpa using (List.mem_filter.mp hy).2
      rw [promoteCmp_le_iff, hxk, hyk]
      exact keyLe_refl k
    have hpw : (l.filter (fun m => decide (codeKey ord m = k))).Pairwise
        (fun a b => promoteCmp ord a b ≤ 0) :=
      List.pairwise_of_forall_mem_list hp
    have h2 : List.Sublist (l.filter (fun m => decide (codeKey ord m = k)))
        (sortBatch ord l) :=
      List.sublist_insertionSort hpw (List.filter_sublist l)
    have h3 : List.Sublist (l.filter (fun m => decide (codeKey ord m = k)))
        ((sortBatch ord l).filter (fun m => decide (codeKey ord m = k))) := by
      have hfil := h2.filter (fun m => decide (codeKey ord m = k))
      have hself : List.filter (fun m => decide (codeKey ord m = k))
          (List.filter (fun m => decide (codeKey ord m = k)) l) =
          List.filter (fun m => decide (codeKey ord m = k)) l := by
        apply List.filter_eq_self.mpr
        intro a ha
        exact (List.mem_filter.mp ha).2
      rwa [hself] at hfil
    have h4 : List.Perm ((sortBatch ord l).filter (fun m => decide (codeKey ord m = k)))
        (l.filter (fun m => decide (codeKey ord m = k))) :=
      (List.perm_insertionSort _ l).filter _
    exact (h3.eq_of_length h4.length_eq.symm).symm
  · simp only [runPromotion]
    split
    · rfl
    · next hlen =>
      have hnil : (promotionScan streaming msgs st.staticIds).2 = [] := by
        have : (promotionScan streaming msgs st.staticIds).2.length = 0 := by omega
        exact List.length_eq_zero.mp this
      rw [hnil]
      simp [sortBatch, List.insertionSort]

end Cebus
